import Mathlib

set_option synthInstance.maxSize 512

/-!
Verification of the GenXL layout engine (src/main.py) against its
natural-language specification.

Strings are modelled as `List Char`.  Python `dict.get` is modelled by
`Option`-typed record fields (`none` = key absent or JSON `null`).
Fallible Python code (raising exceptions) is modelled with `Except Err`.
External collaborators (the Gemini model call, `json.loads`, openpyxl's
workbook object) are modelled at their observable boundary, as the spec
directs.
-/

/-- The error taxonomy of spec §7, restricted to the errors the code can
actually signal (Python `ValueError`s and the openpyxl coordinate error). -/
inductive Err where
  | invalidCoordinate
  | emptyLayout
  | badCoordinate
  | noJsonObjectFound
  | malformedJson
  | missingApiKey
  | emptyInput
deriving DecidableEq, Repr

instance {ε α : Type} [DecidableEq ε] [DecidableEq α] : DecidableEq (Except ε α) := fun x y =>
  match x, y with
  | .ok a, .ok b =>
    if h : a = b then .isTrue (by rw [h]) else .isFalse (fun hh => by cases hh; exact h rfl)
  | .ok _, .error _ => .isFalse (fun hh => by cases hh)
  | .error _, .ok _ => .isFalse (fun hh => by cases hh)
  | .error e, .error f =>
    if h : e = f then .isTrue (by rw [h]) else .isFalse (fun hh => by cases hh; exact h rfl)

/-- Decimal digit character for `n < 10` (explicit table, so everything
reduces in the kernel). -/
def digitChar : Nat → Char
  | 0 => '0' | 1 => '1' | 2 => '2' | 3 => '3' | 4 => '4'
  | 5 => '5' | 6 => '6' | 7 => '7' | 8 => '8' | _ => '9'

/-- Column letter for a bijective base-26 digit `n < 26` (`0 ↦ 'A'`). -/
def colChar : Nat → Char
  | 0 => 'A' | 1 => 'B' | 2 => 'C' | 3 => 'D' | 4 => 'E' | 5 => 'F'
  | 6 => 'G' | 7 => 'H' | 8 => 'I' | 9 => 'J' | 10 => 'K' | 11 => 'L'
  | 12 => 'M' | 13 => 'N' | 14 => 'O' | 15 => 'P' | 16 => 'Q' | 17 => 'R'
  | 18 => 'S' | 19 => 'T' | 20 => 'U' | 21 => 'V' | 22 => 'W' | 23 => 'X'
  | 24 => 'Y' | _ => 'Z'

/-- Decimal rendering of a natural number, with explicit fuel so that the
definition is structural and kernel-evaluable. -/
def toDecAux : Nat → Nat → List Char
  | 0, _ => []
  | fuel + 1, n =>
    if n < 10 then [digitChar n] else toDecAux fuel (n / 10) ++ [digitChar (n % 10)]

/-- Decimal rendering of a natural number (`1 ↦ "1"`, `10 ↦ "10"`, …). -/
def toDec (n : Nat) : List Char := toDecAux (n + 1) n

/-- Bijective base-26 column letters, with explicit fuel. -/
def colLettersAux : Nat → Nat → List Char
  | 0, _ => []
  | fuel + 1, n =>
    if n = 0 then [] else colLettersAux fuel ((n - 1) / 26) ++ [colChar ((n - 1) % 26)]

/-- Bijective base-26 column letters (`1 ↦ "A"`, `26 ↦ "Z"`, `27 ↦ "AA"`, …). -/
def colLetters (n : Nat) : List Char := colLettersAux (n + 1) n

/-- Accumulator-style decimal parse (`foldl`-shape). -/
def parseDecAux (acc : Nat) : List Char → Nat
  | [] => acc
  | c :: rest => parseDecAux (acc * 10 + (c.toNat - 48)) rest

/-- Accumulator-style bijective base-26 parse (`foldl`-shape). -/
def parseColAux (acc : Nat) : List Char → Nat
  | [] => acc
  | c :: rest => parseColAux (acc * 26 + (c.toNat - 64)) rest

/-- Modelled from the spec: the Coordinate Codec's `encode` (§4.1).  The
repository has no codec of its own — coordinate handling is delegated to
the spreadsheet library — so the component is modelled from the spec's
contract: column letters in bijective base 26 followed by the decimal row,
failing with `InvalidCoordinate` on a non-positive row or column. -/
def encode (row col : Int) : Except Err (List Char) :=
  if 1 ≤ row ∧ 1 ≤ col then .ok (colLetters col.toNat ++ toDec row.toNat)
  else .error .invalidCoordinate

/-- Modelled from the spec: the Coordinate Codec's `decode` (§4.1), also
standing in for the spreadsheet library's coordinate parser used by the
Renderer at `worksheet[cell_coordinate]`: a nonempty run of column letters
followed by a nonempty positive decimal row, anything else failing with
`InvalidCoordinate`. -/
def decode (addr : List Char) : Except Err (Int × Int) :=
  let letters := addr.takeWhile (fun c => c.isUpper)
  let digits := addr.drop letters.length
  if letters = [] then .error .invalidCoordinate
  else if digits = [] then .error .invalidCoordinate
  else if ¬ (digits.all (fun c => c.isDigit)) then .error .invalidCoordinate
  else if parseDecAux 0 digits = 0 then .error .invalidCoordinate
  else .ok ((parseDecAux 0 digits : Nat), (parseColAux 0 letters : Nat))

theorem toDecAux_irrel : ∀ (n f1 f2 : Nat), n < f1 → n < f2 → toDecAux f1 n = toDecAux f2 n := by
  intro n
  induction n using Nat.strong_induction_on with
  | _ n ih =>
    intro f1 f2 h1 h2
    match f1, f2 with
    | g1 + 1, g2 + 1 =>
      simp only [toDecAux]
      by_cases h : n < 10
      · simp [h]
      · simp only [if_neg h]
        rw [ih (n / 10) (Nat.div_lt_self (by omega) (by omega)) g1 g2 (by omega) (by omega)]

theorem toDec_eq (n : Nat) :
    toDec n = if n < 10 then [digitChar n] else toDec (n / 10) ++ [digitChar (n % 10)] := by
  show toDecAux (n + 1) n = _
  simp only [toDecAux]
  by_cases h : n < 10
  · simp [h]
  · simp only [if_neg h]
    rw [toDecAux_irrel (n / 10) n (n / 10 + 1) (Nat.div_lt_self (by omega) (by omega)) (by omega)]
    rfl

theorem colLettersAux_irrel :
    ∀ (n f1 f2 : Nat), n < f1 → n < f2 → colLettersAux f1 n = colLettersAux f2 n := by
  intro n
  induction n using Nat.strong_induction_on with
  | _ n ih =>
    intro f1 f2 h1 h2
    match f1, f2 with
    | g1 + 1, g2 + 1 =>
      simp only [colLettersAux]
      by_cases h : n = 0
      · simp [h]
      · simp only [if_neg h]
        have hlt : (n - 1) / 26 < n := by
          have := Nat.div_le_self (n - 1) 26
          omega
        rw [ih ((n - 1) / 26) hlt g1 g2 (by omega) (by omega)]

theorem colLetters_eq (n : Nat) :
    colLetters n = if n = 0 then [] else colLetters ((n - 1) / 26) ++ [colChar ((n - 1) % 26)] := by
  show colLettersAux (n + 1) n = _
  simp only [colLettersAux]
  by_cases h : n = 0
  · simp [h]
  · simp only [if_neg h]
    have hlt : (n - 1) / 26 < n := by
      have := Nat.div_le_self (n - 1) 26
      omega
    rw [colLettersAux_irrel ((n - 1) / 26) n ((n - 1) / 26 + 1) hlt (by omega)]
    rfl

theorem digitChar_toNat {n : Nat} (h : n < 10) : (digitChar n).toNat = 48 + n := by
  interval_cases n <;> rfl

theorem isDigit_digitChar {n : Nat} (h : n < 10) : (digitChar n).isDigit = true := by
  interval_cases n <;> rfl

theorem not_isUpper_digitChar {n : Nat} (h : n < 10) : (digitChar n).isUpper = false := by
  interval_cases n <;> rfl

theorem colChar_toNat {n : Nat} (h : n < 26) : (colChar n).toNat = 65 + n := by
  interval_cases n <;> rfl

theorem isUpper_colChar {n : Nat} (h : n < 26) : (colChar n).isUpper = true := by
  interval_cases n <;> rfl

theorem mem_toDec_isDigit : ∀ (n : Nat), ∀ c ∈ toDec n, c.isDigit = true := by
  intro n
  induction n using Nat.strong_induction_on with
  | _ n ih =>
    intro c hc
    rw [toDec_eq] at hc
    by_cases h : n < 10
    · rw [if_pos h] at hc
      simp only [List.mem_singleton] at hc
      subst hc; exact isDigit_digitChar h
    · rw [if_neg h] at hc
      rcases List.mem_append.mp hc with h1 | h1
      · exact ih (n / 10) (Nat.div_lt_self (by omega) (by omega)) c h1
      · simp only [List.mem_singleton] at h1
        subst h1; exact isDigit_digitChar (Nat.mod_lt _ (by omega))

theorem mem_toDec_not_isUpper : ∀ (n : Nat), ∀ c ∈ toDec n, c.isUpper = false := by
  intro n
  induction n using Nat.strong_induction_on with
  | _ n ih =>
    intro c hc
    rw [toDec_eq] at hc
    by_cases h : n < 10
    · rw [if_pos h] at hc
      simp only [List.mem_singleton] at hc
      subst hc; exact not_isUpper_digitChar h
    · rw [if_neg h] at hc
      rcases List.mem_append.mp hc with h1 | h1
      · exact ih (n / 10) (Nat.div_lt_self (by omega) (by omega)) c h1
      · simp only [List.mem_singleton] at h1
        subst h1; exact not_isUpper_digitChar (Nat.mod_lt _ (by omega))

theorem mem_colLetters_isUpper : ∀ (n : Nat), ∀ c ∈ colLetters n, c.isUpper = true := by
  intro n
  induction n using Nat.strong_induction_on with
  | _ n ih =>
    intro c hc
    rw [colLetters_eq] at hc
    by_cases h : n = 0
    · rw [if_pos h] at hc; cases hc
    · rw [if_neg h] at hc
      have hlt : (n - 1) / 26 < n := by
        have := Nat.div_le_self (n - 1) 26
        omega
      rcases List.mem_append.mp hc with h1 | h1
      · exact ih ((n - 1) / 26) hlt c h1
      · simp only [List.mem_singleton] at h1
        subst h1; exact isUpper_colChar (Nat.mod_lt _ (by omega))

theorem toDec_ne_nil (n : Nat) : toDec n ≠ [] := by
  rw [toDec_eq]
  by_cases h : n < 10 <;> simp [h]

theorem colLetters_ne_nil {n : Nat} (h : n ≠ 0) : colLetters n ≠ [] := by
  rw [colLetters_eq, if_neg h]
  simp

theorem parseDecAux_cons (acc : Nat) (c : Char) (l : List Char) :
    parseDecAux acc (c :: l) = parseDecAux (acc * 10 + (c.toNat - 48)) l := rfl

theorem parseColAux_cons (acc : Nat) (c : Char) (l : List Char) :
    parseColAux acc (c :: l) = parseColAux (acc * 26 + (c.toNat - 64)) l := rfl

theorem parseDecAux_append : ∀ (xs : List Char) (acc : Nat) (ys : List Char),
    parseDecAux acc (xs ++ ys) = parseDecAux (parseDecAux acc xs) ys := by
  intro xs
  induction xs with
  | nil => intro acc ys; rfl
  | cons x xs ih =>
    intro acc ys
    rw [List.cons_append, parseDecAux_cons, parseDecAux_cons]
    exact ih _ ys

theorem parseColAux_append : ∀ (xs : List Char) (acc : Nat) (ys : List Char),
    parseColAux acc (xs ++ ys) = parseColAux (parseColAux acc xs) ys := by
  intro xs
  induction xs with
  | nil => intro acc ys; rfl
  | cons x xs ih =>
    intro acc ys
    rw [List.cons_append, parseColAux_cons, parseColAux_cons]
    exact ih _ ys

theorem parseDec_toDec : ∀ (n : Nat), parseDecAux 0 (toDec n) = n := by
  intro n
  induction n using Nat.strong_induction_on with
  | _ n ih =>
    rw [toDec_eq]
    by_cases h : n < 10
    · rw [if_pos h, parseDecAux_cons, digitChar_toNat h]
      show 0 * 10 + (48 + n - 48) = n
      omega
    · rw [if_neg h, parseDecAux_append,
          ih (n / 10) (Nat.div_lt_self (by omega) (by omega)),
          parseDecAux_cons, digitChar_toNat (by omega : n % 10 < 10)]
      show n / 10 * 10 + (48 + n % 10 - 48) = n
      omega

theorem parseCol_colLetters : ∀ (n : Nat), parseColAux 0 (colLetters n) = n := by
  intro n
  induction n using Nat.strong_induction_on with
  | _ n ih =>
    rw [colLetters_eq]
    by_cases h : n = 0
    · rw [if_pos h]; exact h.symm
    · have hlt : (n - 1) / 26 < n := by
        have := Nat.div_le_self (n - 1) 26
        omega
      rw [if_neg h, parseColAux_append, ih ((n - 1) / 26) hlt,
          parseColAux_cons, colChar_toNat (by omega : (n - 1) % 26 < 26)]
      show (n - 1) / 26 * 26 + (65 + (n - 1) % 26 - 64) = n
      have := Nat.div_add_mod (n - 1) 26
      omega

theorem takeWhile_eq_nil_of_all_false {p : Char → Bool} :
    ∀ (l : List Char), (∀ c ∈ l, p c = false) → l.takeWhile p = [] := by
  intro l h
  cases l with
  | nil => rfl
  | cons x xs =>
    simp only [List.takeWhile_cons]
    simp [h x (List.mem_cons_self x xs)]

theorem decode_encode_nat (rn cn : Nat) (hr : 1 ≤ rn) (hc : 1 ≤ cn) :
    decode (colLetters cn ++ toDec rn) = .ok ((rn : Int), (cn : Int)) := by
  have hletters : (colLetters cn ++ toDec rn).takeWhile (fun c => c.isUpper) = colLetters cn := by
    rw [List.takeWhile_append_of_pos (mem_colLetters_isUpper cn),
        takeWhile_eq_nil_of_all_false (toDec rn) (mem_toDec_not_isUpper rn), List.append_nil]
  unfold decode
  simp only [hletters, List.drop_left]
  rw [if_neg (colLetters_ne_nil (by omega)), if_neg (toDec_ne_nil rn)]
  rw [if_neg (by simp only [List.all_eq_true]; intro hbad; exact hbad (fun c hcmem => mem_toDec_isDigit rn c hcmem)),
      if_neg (by rw [parseDec_toDec]; omega)]
  rw [parseDec_toDec, parseCol_colLetters]

/-- C5: the Coordinate Codec round-trips on `[1,1000]²`, columns follow
bijective base-26 (`1↦A`, `26↦Z`, `27↦AA`, `702↦ZZ`, `703↦AAA`), and
`encode` fails with `InvalidCoordinate` on a non-positive row or column. -/
theorem codec_roundtrip_c5 :
    (∀ r c : Int, 1 ≤ r → r ≤ 1000 → 1 ≤ c → c ≤ 1000 →
      ∃ a, encode r c = .ok a ∧ decode a = .ok (r, c))
    ∧ (colLetters 1 = ['A'] ∧ colLetters 26 = ['Z'] ∧ colLetters 27 = ['A', 'A']
        ∧ colLetters 702 = ['Z', 'Z'] ∧ colLetters 703 = ['A', 'A', 'A'])
    ∧ (∀ r c : Int, r ≤ 0 ∨ c ≤ 0 → encode r c = .error .invalidCoordinate) := by
  refine ⟨?_, ⟨by decide, by decide, by decide, by decide, by decide⟩, ?_⟩
  · intro r c hr _ hc _
    refine ⟨colLetters c.toNat ++ toDec r.toNat, ?_, ?_⟩
    · unfold encode
      rw [if_pos ⟨hr, hc⟩]
    · rw [decode_encode_nat r.toNat c.toNat (by omega) (by omega),
          Int.toNat_of_nonneg (by omega), Int.toNat_of_nonneg (by omega)]
  · intro r c h
    unfold encode
    rw [if_neg (by omega)]

/-- Witness for C5 at `(row, col) = (12, 27)` and `(0, 5)`. -/
theorem codec_roundtrip_c5_witness :
    (∃ a, encode 12 27 = .ok a ∧ decode a = .ok (12, 27))
    ∧ encode 0 5 = .error .invalidCoordinate :=
  ⟨codec_roundtrip_c5.1 12 27 (by decide) (by decide) (by decide) (by decide),
   codec_roundtrip_c5.2.2 0 5 (by decide)⟩

/-! ## Mapping Ingestor (`parse_llm_json`, src/main.py lines 191–207) -/

/-- The backtick character. -/
def btick : Char := Char.ofNat 96

/-- The opening brace character. -/
def lbrace : Char := Char.ofNat 123

/-- The closing brace character. -/
def rbrace : Char := Char.ofNat 125

/-- Python `str.strip` whitespace class. -/
def pyIsSpace (c : Char) : Bool :=
  c = ' ' || c = '\t' || c = '\n' || c = '\r' || c = Char.ofNat 11 || c = Char.ofNat 12

/-- Left part of Python `str.strip`. -/
def lstrip (t : List Char) : List Char := t.dropWhile pyIsSpace

/-- Right part of Python `str.strip`. -/
def rstrip (t : List Char) : List Char := (t.reverse.dropWhile pyIsSpace).reverse

/-- Python `str.strip`. -/
def pstrip (t : List Char) : List Char := rstrip (lstrip t)

/-- Three backticks, the fenced-block marker. -/
def fence3 : List Char := [btick, btick, btick]

/-- Model of `re.sub(r"BBB$", "", text)` where `BBB` is the fence: remove one
trailing fence if present. -/
def dropTrailFence (t : List Char) : List Char :=
  if fence3.isSuffixOf t then t.take (t.length - 3) else t

/-- The fence-stripping branch of `parse_llm_json`: if the stripped text
starts with three backticks, remove them together with the optional
language tag (`re.sub(r"^BBB[a-zA-Z]*", "", text)` where `BBB` is the
fence), remove a trailing fence (`re.sub(r"BBB$", "", text)`), and strip
again. -/
def stripFence (t : List Char) : List Char :=
  if fence3.isPrefixOf t then
    pstrip (dropTrailFence ((t.drop 3).dropWhile (fun c => c.isAlpha)))
  else t

/-- The text `parse_llm_json` extracts braces from: input stripped, then
fence-stripped. -/
def processedText (raw : List Char) : List Char := stripFence (pstrip raw)

/-- Python `str.find` for a single character (index of first occurrence). -/
def pyFind (c : Char) : List Char → Option Nat
  | [] => none
  | x :: xs => if x = c then some 0 else (pyFind c xs).map (· + 1)

/-- Python `str.rfind` for a single character (index of last occurrence). -/
def pyRFind (c : Char) (t : List Char) : Option Nat :=
  (pyFind c t.reverse).map (fun i => t.length - 1 - i)

/-- The brace-extraction step of `parse_llm_json`: first `{`, last `}`,
and the
 slice `text[first_brace : last_brace + 1]` (`none` when either brace is
missing, which the code reports as `NoJsonObjectFound`). -/
def extractBraces (t : List Char) : Option (List Char) :=
  match pyFind lbrace t, pyRFind rbrace t with
  | some f, some l => some ((t.drop f).take (l + 1 - f))
  | _, _ => none

/-- The function `parse_llm_json` (src/main.py lines 191–207).  `loads` abstracts the
Python standard-library `json.loads`; a `loads` failure is the code's
`json.JSONDecodeError` path, reported as `MalformedJson`. -/
def parse_llm_json {α : Type} (loads : List Char → Except Unit α) (raw_text : List Char) :
    Except Err α :=
  match extractBraces (processedText raw_text) with
  | none => .error .noJsonObjectFound
  | some s =>
    match loads s with
    | .ok j => .ok j
    | .error _ => .error .malformedJson

/-! ## JSON values: the shape of `json.loads` output -/

mutual
/-- A JSON value (numerals restricted to integers, which covers every
input this development evaluates). -/
inductive J where
  | jnull
  | jbool (b : Bool)
  | jnum (n : Int)
  | jstr (s : List Char)
  | jarr (xs : JList)
  | jobj (kvs : JFields)
deriving DecidableEq
/-- A list of JSON values. -/
inductive JList where
  | nil
  | cons (hd : J) (tl : JList)
deriving DecidableEq
/-- The ordered key/value fields of a JSON object. -/
inductive JFields where
  | nil
  | cons (key : List Char) (val : J) (tl : JFields)
deriving DecidableEq
end

mutual
/-- A JSON serialization (used to state C3: any text whose first
character is `{` and last is `}` works; this serializer produces such
text for objects). -/
def jser : J → List Char
  | .jnull => ['n', 'u', 'l', 'l']
  | .jbool true => ['t', 'r', 'u', 'e']
  | .jbool false => ['f', 'a', 'l', 's', 'e']
  | .jnum n => if n < 0 then '-' :: toDec (-n).toNat else toDec n.toNat
  | .jstr s => '"' :: (s ++ ['"'])
  | .jarr xs => '[' :: (jserList xs ++ [']'])
  | .jobj kvs => lbrace :: (jserFields kvs ++ [rbrace])

/-- Serialize array elements, comma-separated. -/
def jserList : JList → List Char
  | .nil => []
  | .cons x .nil => jser x
  | .cons x tl => jser x ++ ',' :: jserList tl

/-- Serialize object fields, comma-separated. -/
def jserFields : JFields → List Char
  | .nil => []
  | .cons k v .nil => '"' :: (k ++ '"' :: ':' :: jser v)
  | .cons k v tl => ('"' :: (k ++ '"' :: ':' :: jser v)) ++ ',' :: jserFields tl
end

/-- Skip JSON whitespace. -/
def skipWs (t : List Char) : List Char := t.dropWhile pyIsSpace

/-- Unescape for the string parser (minimal escape set). -/
def unesc (c : Char) : Char :=
  if c = 'n' then '\n' else if c = 't' then '\t' else if c = 'r' then '\r' else c

/-- Parse the remainder of a JSON string (after the opening quote). -/
def parseStr : List Char → Option (List Char × List Char)
  | [] => none
  | '"' :: r => some ([], r)
  | '\\' :: c :: r =>
    match parseStr r with
    | some (s, r') => some (unesc c :: s, r')
    | none => none
  | c :: r =>
    match parseStr r with
    | some (s, r') => some (c :: s, r')
    | none => none

/-- Parse a nonempty digit run as a natural number. -/
def parseNum (t : List Char) : Option (Int × List Char) :=
  let ds := t.takeWhile (fun c => c.isDigit)
  if ds = [] then none else some ((parseDecAux 0 ds : Nat), t.drop ds.length)

mutual
/-- Fueled recursive-descent JSON value parser (model of the Python
standard library's `json.loads`, integer numerals only). -/
def parseVal : Nat → List Char → Option (J × List Char)
  | 0, _ => none
  | fuel + 1, t =>
    match skipWs t with
    | 'n' :: 'u' :: 'l' :: 'l' :: r => some (.jnull, r)
    | 't' :: 'r' :: 'u' :: 'e' :: r => some (.jbool true, r)
    | 'f' :: 'a' :: 'l' :: 's' :: 'e' :: r => some (.jbool false, r)
    | '"' :: r =>
      match parseStr r with
      | some (s, r') => some (.jstr s, r')
      | none => none
    | '-' :: r =>
      match parseNum r with
      | some (n, r') => some (.jnum (-n), r')
      | none => none
    | '[' :: r =>
      match skipWs r with
      | ']' :: r' => some (.jarr .nil, r')
      | r' =>
        match parseItems fuel r' with
        | some (xs, r'') => some (.jarr xs, r'')
        | none => none
    | t' =>
      if t'.headD ' ' = lbrace then
        match skipWs (t'.drop 1) with
        | r' =>
          if r'.headD ' ' = rbrace then some (.jobj .nil, r'.drop 1)
          else
            match parseFields fuel r' with
            | some (kvs, r'') => some (.jobj kvs, r'')
            | none => none
      else
        match parseNum t' with
        | some (n, r') => some (.jnum n, r')
        | none => none

/-- Parse one-or-more comma-separated array items up to `]`. -/
def parseItems : Nat → List Char → Option (JList × List Char)
  | 0, _ => none
  | fuel + 1, t =>
    match parseVal fuel t with
    | some (x, r) =>
      match skipWs r with
      | ',' :: r' =>
        match parseItems fuel r' with
        | some (xs, r'') => some (.cons x xs, r'')
        | none => none
      | ']' :: r' => some (.cons x .nil, r')
      | _ => none
    | none => none

/-- Parse one-or-more comma-separated object fields up to the closing
brace. -/
def parseFields : Nat → List Char → Option (JFields × List Char)
  | 0, _ => none
  | fuel + 1, t =>
    match skipWs t with
    | '"' :: r =>
      match parseStr r with
      | some (k, r') =>
        match skipWs r' with
        | ':' :: r2 =>
          match parseVal fuel r2 with
          | some (v, r3) =>
            match skipWs r3 with
            | ',' :: r4 =>
              match parseFields fuel r4 with
              | some (kvs, r5) => some (.cons k v kvs, r5)
              | none => none
            | r4 =>
              if r4.headD ' ' = rbrace then some (.cons k v .nil, r4.drop 1)
              else none
          | none => none
        | _ => none
      | none => none
    | _ => none
end

/-- Model of the Python standard library's `json.loads`: parse one JSON
value, require only whitespace after it, fail otherwise (the code's
`json.JSONDecodeError`). -/
def jsonLoads (t : List Char) : Except Unit J :=
  match parseVal (t.length + 1) t with
  | some (j, rest) => if skipWs rest = [] then .ok j else .error ()
  | none => .error ()


/-! ## Ingestor lemmas -/

theorem mem_dropWhile_iff_of_false {p : Char → Bool} {c : Char} (hc : p c = false) :
    ∀ (l : List Char), c ∈ l.dropWhile p ↔ c ∈ l := by
  intro l
  induction l with
  | nil => simp
  | cons x xs ih =>
    by_cases hx : p x
    · rw [List.dropWhile_cons_of_pos hx, ih]
      have hne : c ≠ x := fun h => by rw [h] at hc; rw [hc] at hx; cases hx
      simp [List.mem_cons, hne]
    · rw [List.dropWhile_cons_of_neg hx]

theorem mem_lstrip_iff {c : Char} (hc : pyIsSpace c = false) (l : List Char) :
    c ∈ lstrip l ↔ c ∈ l := mem_dropWhile_iff_of_false hc l

theorem mem_rstrip_iff {c : Char} (hc : pyIsSpace c = false) (l : List Char) :
    c ∈ rstrip l ↔ c ∈ l := by
  unfold rstrip
  rw [List.mem_reverse, mem_dropWhile_iff_of_false hc, List.mem_reverse]

theorem mem_pstrip_iff {c : Char} (hc : pyIsSpace c = false) (l : List Char) :
    c ∈ pstrip l ↔ c ∈ l := by
  unfold pstrip
  rw [mem_rstrip_iff hc, mem_lstrip_iff hc]


theorem mem_dropTrailFence_iff {c : Char} (hc3 : c ≠ btick) (t : List Char) :
    c ∈ dropTrailFence t ↔ c ∈ t := by
  unfold dropTrailFence
  by_cases hsf : fence3.isSuffixOf t
  · rw [if_pos hsf]
    obtain ⟨y, hy⟩ := List.isSuffixOf_iff_suffix.mp hsf
    subst hy
    have hlen : (y ++ fence3).length - 3 = y.length := by
      simp [fence3]
    rw [hlen, List.take_left]
    simp [fence3, hc3]
  · rw [if_neg hsf]

theorem mem_stripFence_iff {c : Char} (hc1 : pyIsSpace c = false) (hc2 : c.isAlpha = false)
    (hc3 : c ≠ btick) (l : List Char) : c ∈ stripFence l ↔ c ∈ l := by
  unfold stripFence
  by_cases hpre : fence3.isPrefixOf l
  · rw [if_pos hpre]
    obtain ⟨rest, hrest⟩ := List.isPrefixOf_iff_prefix.mp hpre
    subst hrest
    have hdrop : (fence3 ++ rest).drop 3 = rest := rfl
    rw [mem_pstrip_iff hc1, mem_dropTrailFence_iff hc3, hdrop,
        mem_dropWhile_iff_of_false hc2]
    simp [fence3, hc3]
  · rw [if_neg hpre]

theorem mem_processedText_iff {c : Char} (hc1 : pyIsSpace c = false) (hc2 : c.isAlpha = false)
    (hc3 : c ≠ btick) (raw : List Char) : c ∈ processedText raw ↔ c ∈ raw := by
  unfold processedText
  rw [mem_stripFence_iff hc1 hc2 hc3, mem_pstrip_iff hc1]

theorem pyFind_eq_none_iff (c : Char) : ∀ (l : List Char), pyFind c l = none ↔ c ∉ l := by
  intro l
  induction l with
  | nil => simp [pyFind]
  | cons x xs ih =>
    by_cases hx : x = c
    · subst hx
      simp [pyFind]
    · simp only [pyFind, if_neg hx, List.mem_cons]
      constructor
      · intro h hor
        rcases hor with h1 | h1
        · exact hx h1.symm
        · rcases hm : pyFind c xs with _ | v
          · exact (ih.mp hm) h1
          · rw [hm] at h; cases h
      · intro h
        have : c ∉ xs := fun hmem => h (Or.inr hmem)
        rw [ih.mpr this]
        rfl

theorem pyRFind_eq_none_iff (c : Char) (l : List Char) : pyRFind c l = none ↔ c ∉ l := by
  unfold pyRFind
  rcases hm : pyFind c l.reverse with _ | v
  · simp only [Option.map_none']
    rw [pyFind_eq_none_iff] at hm
    rw [List.mem_reverse] at hm
    simp [hm]
  · simp only [Option.map_some']
    constructor
    · intro h; cases h
    · intro h
      rw [(pyFind_eq_none_iff c l.reverse).mpr (by rw [List.mem_reverse]; exact h)] at hm
      cases hm

theorem extractBraces_eq_none_iff (t : List Char) :
    extractBraces t = none ↔ (lbrace ∉ t ∨ rbrace ∉ t) := by
  unfold extractBraces
  rcases hf : pyFind lbrace t with _ | f <;> rcases hl : pyRFind rbrace t with _ | l
  · simp only [true_iff]
    exact Or.inl ((pyFind_eq_none_iff _ t).mp hf)
  · simp only [true_iff]
    exact Or.inl ((pyFind_eq_none_iff _ t).mp hf)
  · simp only [true_iff]
    exact Or.inr ((pyRFind_eq_none_iff _ t).mp hl)
  · simp only [iff_false_intro]
    constructor
    · intro h; cases h
    · intro h
      rcases h with h | h
      · rw [(pyFind_eq_none_iff lbrace t).mpr h] at hf; cases hf
      · rw [(pyRFind_eq_none_iff rbrace t).mpr h] at hl; cases hl

/-- C4 (amended): `parse_llm_json` fails with `NoJsonObjectFound` exactly
when the input text contains no `{` or no `}` at all; when braces are
present and the extracted substring fails to parse, the error is
`MalformedJson`. -/
theorem ingestor_errors_c4 {α : Type} (loads : List Char → Except Unit α) :
    (∀ raw : List Char,
      parse_llm_json loads raw = .error .noJsonObjectFound ↔ (lbrace ∉ raw ∨ rbrace ∉ raw))
    ∧ (∀ raw s : List Char, extractBraces (processedText raw) = some s →
        loads s = .error () → parse_llm_json loads raw = .error .malformedJson) := by
  constructor
  · intro raw
    unfold parse_llm_json
    rcases he : extractBraces (processedText raw) with _ | s
    · simp only [true_iff]
      have := (extractBraces_eq_none_iff (processedText raw)).mp he
      rcases this with h | h
      · exact Or.inl (fun hm => h ((mem_processedText_iff (by decide) (by decide)
          (by decide) raw).mpr hm))
      · exact Or.inr (fun hm => h ((mem_processedText_iff (by decide) (by decide)
          (by decide) raw).mpr hm))
    · have hne : ¬ (lbrace ∉ raw ∨ rbrace ∉ raw) := by
        intro hor
        have : extractBraces (processedText raw) = none := by
          rw [extractBraces_eq_none_iff]
          rcases hor with h | h
          · exact Or.inl (fun hm => h ((mem_processedText_iff (by decide) (by decide)
              (by decide) raw).mp hm))
          · exact Or.inr (fun hm => h ((mem_processedText_iff (by decide) (by decide)
              (by decide) raw).mp hm))
        rw [he] at this; cases this
      constructor
      · intro h
        exfalso
        have h' : (match loads s with
            | Except.ok j => (Except.ok j : Except Err α)
            | Except.error _ => Except.error Err.malformedJson)
            = Except.error Err.noJsonObjectFound := h
        rcases hl : loads s with j | u <;> rw [hl] at h' <;> simp at h'
      · intro hor
        exact absurd hor hne
  · intro raw s he hl
    unfold parse_llm_json
    rw [he]
    show (match loads s with
      | Except.ok j => (Except.ok j : Except Err α)
      | Except.error _ => Except.error Err.malformedJson) = Except.error Err.malformedJson
    rw [hl]

/-- C4 (counterexample): the text `{}}` has unbalanced braces, yet the
Mapping Ingestor fails with `MalformedJson`, not `NoJsonObjectFound` as
the claim states. -/
theorem ingestor_unbalanced_counterexample_c4 :
    parse_llm_json jsonLoads [lbrace, rbrace, rbrace] = .error .malformedJson
    ∧ parse_llm_json jsonLoads [lbrace, rbrace, rbrace] ≠ .error .noJsonObjectFound := by
  decide

/-- Witness for C4 at concrete inputs: `abc` (no braces at all) and
`{x}` (braces present, invalid JSON inside). -/
theorem ingestor_errors_c4_witness :
    parse_llm_json jsonLoads ['a', 'b', 'c'] = .error .noJsonObjectFound
    ∧ parse_llm_json jsonLoads [lbrace, 'x', rbrace] = .error .malformedJson :=
  ⟨((ingestor_errors_c4 jsonLoads).1 ['a', 'b', 'c']).mpr (by decide),
   (ingestor_errors_c4 jsonLoads).2 [lbrace, 'x', rbrace] [lbrace, 'x', rbrace]
     (by decide) (by decide)⟩

theorem dropWhile_append_of_head_false {p : Char → Bool} :
    ∀ (xs : List Char) {a : Char} {t ys : List Char}, ys = a :: t → p a = false →
      (xs ++ ys).dropWhile p = xs.dropWhile p ++ ys := by
  intro xs
  induction xs with
  | nil =>
    intro a t ys hys ha
    subst hys
    have ha' : ¬ p a = true := fun h => by rw [h] at ha; cases ha
    simp [List.dropWhile_cons_of_neg ha']
  | cons x xs ih =>
    intro a t ys hys ha
    by_cases hx : p x
    · rw [List.cons_append, List.dropWhile_cons_of_pos hx, List.dropWhile_cons_of_pos hx]
      exact ih hys ha
    · rw [List.cons_append, List.dropWhile_cons_of_neg hx, List.dropWhile_cons_of_neg hx,
          List.cons_append]

theorem lstrip_append_head (xs : List Char) {a : Char} {t ys : List Char}
    (hys : ys = a :: t) (ha : pyIsSpace a = false) :
    lstrip (xs ++ ys) = lstrip xs ++ ys :=
  dropWhile_append_of_head_false xs hys ha

theorem rstrip_append_last (q : List Char) {a : Char} {t X : List Char}
    (hX : X = t ++ [a]) (ha : pyIsSpace a = false) :
    rstrip (X ++ q) = X ++ rstrip q := by
  unfold rstrip
  have hrev : X.reverse = a :: t.reverse := by
    rw [hX, List.reverse_append]
    rfl
  rw [List.reverse_append,
      dropWhile_append_of_head_false q.reverse hrev ha,
      List.reverse_append, List.reverse_reverse]

theorem lstrip_eq_self_of_head {a : Char} {t l : List Char} (hl : l = a :: t)
    (ha : pyIsSpace a = false) : lstrip l = l := by
  subst hl
  exact List.dropWhile_cons_of_neg (by rw [ha]; exact fun h => by cases h)

theorem rstrip_eq_self_of_last {a : Char} {t l : List Char} (hl : l = t ++ [a])
    (ha : pyIsSpace a = false) : rstrip l = l := by
  have := rstrip_append_last [] hl ha
  rw [List.append_nil] at this
  rw [this]
  show l ++ rstrip [] = l
  rw [show rstrip [] = [] from rfl, List.append_nil]

theorem pstrip_sandwich (p s q : List Char)
    (hhead : ∃ t, s = lbrace :: t) (hlast : ∃ t, s = t ++ [rbrace]) :
    pstrip (p ++ (s ++ q)) = lstrip p ++ (s ++ rstrip q) := by
  obtain ⟨t1, ht1⟩ := hhead
  obtain ⟨t2, ht2⟩ := hlast
  unfold pstrip
  rw [lstrip_append_head p (show s ++ q = lbrace :: (t1 ++ q) by rw [ht1]; rfl) (by decide),
      show lstrip p ++ (s ++ q) = (lstrip p ++ s) ++ q from (List.append_assoc _ _ _).symm,
      rstrip_append_last q (show lstrip p ++ s = (lstrip p ++ t2) ++ [rbrace] by
        rw [ht2, List.append_assoc]) (by decide),
      List.append_assoc]

theorem fence3_not_prefix_of_cons {a : Char} (l : List Char) (ha : a ≠ btick) :
    fence3.isPrefixOf (a :: l) = false := by
  have hne : (btick == a) = false := beq_eq_false_iff_ne.mpr (fun h => ha h.symm)
  simp only [fence3, List.isPrefixOf, hne, Bool.false_and]

theorem stripFence_of_not_fence {l : List Char} (h : fence3.isPrefixOf l = false) :
    stripFence l = l := by
  unfold stripFence
  rw [h]
  simp

theorem pyFind_append_of_not_mem {c : Char} :
    ∀ (xs : List Char), c ∉ xs → ∀ ys, pyFind c (xs ++ ys) = (pyFind c ys).map (· + xs.length) := by
  intro xs
  induction xs with
  | nil =>
    intro _ ys
    cases hv : pyFind c ys <;> simp [hv]
  | cons x xs ih =>
    intro hmem ys
    have hx : ¬ (x = c) := fun h => hmem (by rw [h]; exact List.mem_cons_self c xs)
    rw [List.cons_append]
    show (if x = c then some 0 else (pyFind c (xs ++ ys)).map (· + 1)) = _
    rw [if_neg hx, ih (fun h => hmem (List.mem_cons_of_mem x h)) ys]
    rcases pyFind c ys with _ | v
    · rfl
    · show some (v + xs.length + 1) = some (v + (xs.length + 1))
      rw [Nat.add_assoc]

theorem extractBraces_sandwich (p s q : List Char)
    (hp : lbrace ∉ p) (hq : rbrace ∉ q)
    (hhead : ∃ t, s = lbrace :: t) (hlast : ∃ t, s = t ++ [rbrace]) :
    extractBraces (p ++ (s ++ q)) = some s := by
  obtain ⟨t1, ht1⟩ := hhead
  obtain ⟨t2, ht2⟩ := hlast
  have hfind : pyFind lbrace (p ++ (s ++ q)) = some p.length := by
    rw [pyFind_append_of_not_mem p hp]
    rw [show s ++ q = lbrace :: (t1 ++ q) by rw [ht1]; rfl]
    show (some 0).map (· + p.length) = _
    simp
  have hrfind : pyRFind rbrace (p ++ (s ++ q)) =
      some (p.length + s.length - 1) := by
    unfold pyRFind
    have hrev : (p ++ (s ++ q)).reverse = q.reverse ++ (s.reverse ++ p.reverse) := by
      rw [List.reverse_append, List.reverse_append, List.append_assoc]
    rw [hrev, pyFind_append_of_not_mem q.reverse (by rw [List.mem_reverse]; exact hq)]
    have hsrev : s.reverse ++ p.reverse = rbrace :: (t2.reverse ++ p.reverse) := by
      rw [ht2, List.reverse_append]
      rfl
    rw [hsrev]
    show ((some 0).map (· + q.reverse.length)).map _ = _
    have hs1 : 1 ≤ s.length := by rw [ht1]; simp
    simp only [Option.map_some']
    congr 1
    simp only [List.length_append, List.length_reverse]
    omega
  unfold extractBraces
  rw [hfind, hrfind]
  have hs1 : 1 ≤ s.length := by rw [ht1]; simp
  have harith : p.length + s.length - 1 + 1 - p.length = s.length := by omega
  show some (((p ++ (s ++ q)).drop p.length).take (p.length + s.length - 1 + 1 - p.length))
    = some s
  rw [harith, List.drop_left, List.take_left]

theorem extractBraces_self (s : List Char)
    (hhead : ∃ t, s = lbrace :: t) (hlast : ∃ t, s = t ++ [rbrace]) :
    extractBraces s = some s := by
  have := extractBraces_sandwich [] s [] (by simp) (by simp) hhead hlast
  rw [List.nil_append, List.append_nil] at this
  exact this

theorem processedText_self (s : List Char)
    (hhead : ∃ t, s = lbrace :: t) (hlast : ∃ t, s = t ++ [rbrace]) :
    processedText s = s := by
  obtain ⟨t1, ht1⟩ := hhead
  obtain ⟨t2, ht2⟩ := hlast
  unfold processedText
  rw [show pstrip s = rstrip (lstrip s) from rfl,
      lstrip_eq_self_of_head ht1 (by decide),
      rstrip_eq_self_of_last ht2 (by decide)]
  exact stripFence_of_not_fence (by rw [ht1]; exact fence3_not_prefix_of_cons _ (by decide))

theorem processedText_sandwich (p s q : List Char)
    (hpb : ∀ c ∈ p, c ≠ btick)
    (hhead : ∃ t, s = lbrace :: t) (hlast : ∃ t, s = t ++ [rbrace]) :
    processedText (p ++ (s ++ q)) = lstrip p ++ (s ++ rstrip q) := by
  unfold processedText
  rw [pstrip_sandwich p s q hhead hlast]
  apply stripFence_of_not_fence
  cases hP : lstrip p with
  | nil =>
    obtain ⟨t1, ht1⟩ := hhead
    rw [List.nil_append, ht1]
    exact fence3_not_prefix_of_cons _ (by decide)
  | cons a rest =>
    have ha : a ∈ p := (List.dropWhile_sublist _).mem
      (by rw [show List.dropWhile pyIsSpace p = a :: rest from hP]
          exact List.mem_cons_self a rest)
    exact fence3_not_prefix_of_cons _ (hpb a ha)

/-- A fenced block: three backticks, a language tag, a newline, the
payload, a newline, and a matching closing fence. -/
def fenceWrap (lang s : List Char) : List Char :=
  fence3 ++ (lang ++ ('\n' :: (s ++ ('\n' :: fence3))))

theorem processedText_fenceWrap (lang s : List Char)
    (hlang : ∀ c ∈ lang, c.isAlpha = true)
    (hhead : ∃ t, s = lbrace :: t) (hlast : ∃ t, s = t ++ [rbrace]) :
    processedText (fenceWrap lang s) = s := by
  obtain ⟨t1, ht1⟩ := hhead
  obtain ⟨t2, ht2⟩ := hlast
  have hcons : fenceWrap lang s
      = btick :: (btick :: (btick :: (lang ++ ('\n' :: (s ++ ('\n' :: fence3)))))) := rfl
  have hlastW : fenceWrap lang s
      = (fence3 ++ (lang ++ ('\n' :: (s ++ ['\n', btick, btick])))) ++ [btick] := by
    simp [fenceWrap, fence3]
  have hpre : fence3.isPrefixOf (fenceWrap lang s) = true :=
    List.isPrefixOf_iff_prefix.mpr ⟨lang ++ ('\n' :: (s ++ ('\n' :: fence3))), rfl⟩
  unfold processedText
  rw [show pstrip (fenceWrap lang s) = rstrip (lstrip (fenceWrap lang s)) from rfl,
      lstrip_eq_self_of_head hcons (by decide),
      rstrip_eq_self_of_last hlastW (by decide)]
  unfold stripFence
  rw [hpre]
  simp only [if_true]
  have hdrop3 : (fenceWrap lang s).drop 3 = lang ++ ('\n' :: (s ++ ('\n' :: fence3))) := rfl
  rw [hdrop3,
      List.dropWhile_append_of_pos (fun a ha => hlang a ha),
      List.dropWhile_cons_of_neg (by decide)]
  have hsfx : '\n' :: (s ++ ('\n' :: fence3)) = ('\n' :: (s ++ ['\n'])) ++ fence3 := by
    simp [fence3]
  rw [hsfx]
  unfold dropTrailFence
  have hsf : fence3.isSuffixOf (('\n' :: (s ++ ['\n'])) ++ fence3) = true :=
    List.isSuffixOf_iff_suffix.mpr ⟨_, rfl⟩
  rw [hsf]
  simp only [if_true]
  have hY : ('\n' :: (s ++ ['\n'])).length
      = (('\n' :: (s ++ ['\n'])) ++ fence3).length - 3 := by
    simp [fence3]
  rw [List.take_left' hY]
  rw [show pstrip ('\n' :: (s ++ ['\n'])) = rstrip (lstrip ('\n' :: (s ++ ['\n']))) from rfl]
  have hls : lstrip ('\n' :: (s ++ ['\n'])) = s ++ ['\n'] := by
    unfold lstrip
    rw [List.dropWhile_cons_of_pos (by decide),
        show s ++ ['\n'] = lbrace :: (t1 ++ ['\n']) by rw [ht1]; rfl]
    exact List.dropWhile_cons_of_neg (by decide)
  rw [hls]
  have hsr : s.reverse = rbrace :: t2.reverse := by
    rw [ht2, List.reverse_append]
    rfl
  unfold rstrip
  rw [show (s ++ ['\n']).reverse = '\n' :: s.reverse by rw [List.reverse_append]; rfl,
      List.dropWhile_cons_of_pos (by decide), hsr,
      List.dropWhile_cons_of_neg (by decide), ← hsr, List.reverse_reverse]

theorem parse_llm_json_congr {α : Type} (loads : List Char → Except Unit α) {w v : List Char}
    (h : extractBraces (processedText w) = extractBraces (processedText v)) :
    parse_llm_json loads w = parse_llm_json loads v := by
  unfold parse_llm_json
  rw [h]

theorem jser_jobj (kvs : JFields) :
    jser (J.jobj kvs) = lbrace :: (jserFields kvs ++ [rbrace]) := by
  rw [jser]

theorem parse_wrapped_eq {α : Type} (loads : List Char → Except Unit α)
    (s lang p q : List Char)
    (hhead : ∃ t, s = lbrace :: t) (hlast : ∃ t, s = t ++ [rbrace])
    (hlang : ∀ c ∈ lang, c.isAlpha = true)
    (hp : ∀ c ∈ p, c ≠ lbrace ∧ c ≠ btick)
    (hq : ∀ c ∈ q, c ≠ rbrace) :
    parse_llm_json loads (fenceWrap lang s) = parse_llm_json loads s
    ∧ parse_llm_json loads (p ++ (s ++ q)) = parse_llm_json loads s := by
  have hself : processedText s = s := processedText_self s hhead hlast
  constructor
  · exact parse_llm_json_congr loads
      (by rw [processedText_fenceWrap lang s hlang hhead hlast, hself])
  · apply parse_llm_json_congr loads
    rw [processedText_sandwich p s q (fun c hc => (hp c hc).2) hhead hlast, hself,
        extractBraces_self s hhead hlast]
    apply extractBraces_sandwich (lstrip p) s (rstrip q)
    · intro hm
      exact (hp lbrace ((List.dropWhile_sublist _).mem hm)).1 rfl
    · intro hm
      have h1 : rbrace ∈ List.dropWhile pyIsSpace q.reverse := List.mem_reverse.mp hm
      have h2 : rbrace ∈ q := List.mem_reverse.mp ((List.dropWhile_sublist _).mem h1)
      exact hq rbrace h2 rfl
    · exact hhead
    · exact hlast

/-- C3: for every JSON object, wrapping its serialization in a fenced
block with a language tag, or in leading/trailing prose outside the
outermost braces (prose containing no brace on its inner side and no
backtick on the leading side), parses to the same structure as the
unwrapped serialization. -/
theorem ingestor_robustness_c3 {α : Type} (loads : List Char → Except Unit α)
    (kvs : JFields) (lang p q : List Char)
    (hlang : ∀ c ∈ lang, c.isAlpha = true)
    (hp : ∀ c ∈ p, c ≠ lbrace ∧ c ≠ btick)
    (hq : ∀ c ∈ q, c ≠ rbrace) :
    parse_llm_json loads (fenceWrap lang (jser (J.jobj kvs)))
      = parse_llm_json loads (jser (J.jobj kvs))
    ∧ parse_llm_json loads (p ++ (jser (J.jobj kvs) ++ q))
      = parse_llm_json loads (jser (J.jobj kvs)) :=
  parse_wrapped_eq loads (jser (J.jobj kvs)) lang p q
    ⟨jserFields kvs ++ [rbrace], jser_jobj kvs⟩
    ⟨lbrace :: jserFields kvs, by rw [jser_jobj]; rfl⟩
    hlang hp hq

/-- Witness for C3: the object `{"A": 7}` wrapped in a `json`-tagged fence
and in prose. -/
theorem ingestor_robustness_c3_witness :
    parse_llm_json jsonLoads
        (fenceWrap ['j', 's', 'o', 'n'] (jser (J.jobj (.cons ['A'] (.jnum 7) .nil))))
      = parse_llm_json jsonLoads (jser (J.jobj (.cons ['A'] (.jnum 7) .nil)))
    ∧ parse_llm_json jsonLoads
        (['s', 'e', 'e', ':', ' '] ++ (jser (J.jobj (.cons ['A'] (.jnum 7) .nil)) ++ [' ', 'o', 'k']))
      = parse_llm_json jsonLoads (jser (J.jobj (.cons ['A'] (.jnum 7) .nil))) :=
  ingestor_robustness_c3 jsonLoads (.cons ['A'] (.jnum 7) .nil)
    ['j', 's', 'o', 'n'] ['s', 'e', 'e', ':', ' '] [' ', 'o', 'k']
    (by decide) (by decide) (by decide)

/-! ## `load_prompt` and `call_llm` (src/main.py lines 15–188, 210–222) -/

/-- The function `load_prompt` (src/main.py lines 15–188): raises `ValueError` when the
input data is empty, otherwise builds the instruction prompt from the
TOON-encoded input.  `tmpl` abstracts the f-string literal around the
encoded data and `enc` the external `py_toon_format.encode`. -/
def load_prompt (tmpl : List Char → List Char) (enc : JFields → List Char)
    (input_data : JFields) : Except Err (List Char) :=
  match input_data with
  | .nil => .error .emptyInput
  | .cons k v rest => .ok (tmpl (enc (.cons k v rest)))

/-- The function `call_llm` (src/main.py lines 210–222): fails when `GEMINI_API_KEY` is
absent or empty, then sends the prompt to the external Gemini model and
parses the model's response text with `parse_llm_json`.  The external
model is not a function of the prompt (the service does not promise
deterministic sampling), so the response text is an explicit input at
this boundary; the prompt influences the result only through it. -/
def call_llm {α : Type} (loads : List Char → Except Unit α) (api_key : Option (List Char))
    (response_text : List Char) (prompt : List Char) : Except Err α :=
  match api_key with
  | none => .error .missingApiKey
  | some k => if k = [] then .error .missingApiKey else parse_llm_json loads response_text

/-- One run of the mapping-producing pipeline of `main`
(`load_prompt` then `call_llm`), with the external model's response text
as an input. -/
def run_pipeline {α : Type} (loads : List Char → Except Unit α)
    (tmpl : List Char → List Char) (enc : JFields → List Char)
    (api_key : Option (List Char)) (input_data : JFields)
    (response_text : List Char) : Except Err α :=
  match load_prompt tmpl enc input_data with
  | .error e => .error e
  | .ok prompt => call_llm loads api_key response_text prompt

/-- C1 (counterexample): the mapping-producing step is not a function of
the Document.  On the same nonempty Document (and the same API key and
prompt), two runs in which the external model returns the two responses
`{"A":1}` and `{"A":2}` — both possible answers to one prompt — produce
different outputs, so "running the pipeline twice on the same Document
yields byte-identical LayoutOutput" fails at this Document. -/
theorem pipeline_nondet_counterexample_c1 :
    run_pipeline jsonLoads (fun t => t) (fun _ => ['x']) (some ['k'])
        (.cons ['a'] .jnull .nil) [lbrace, '"', 'A', '"', ':', '1', rbrace]
      ≠ run_pipeline jsonLoads (fun t => t) (fun _ => ['x']) (some ['k'])
        (.cons ['a'] .jnull .nil) [lbrace, '"', 'A', '"', ':', '2', rbrace] := by
  decide

/-- C1 (amended): the pipeline is deterministic in the external model's
response text alone — for a fixed response text and API key, the produced
structure is identical across runs, whatever (nonempty) Document and
prompt template produced the prompt.  Determinism over the Document alone
does not hold, because the model response is an input, not a function of
the Document. -/
theorem pipeline_det_in_response_c1 {α : Type} (loads : List Char → Except Unit α)
    (tmpl1 tmpl2 : List Char → List Char) (enc1 enc2 : JFields → List Char)
    (api_key : Option (List Char)) (d1 d2 : JFields) (r : List Char)
    (h1 : d1 ≠ .nil) (h2 : d2 ≠ .nil) :
    run_pipeline loads tmpl1 enc1 api_key d1 r
      = run_pipeline loads tmpl2 enc2 api_key d2 r := by
  cases d1 with
  | nil => exact absurd rfl h1
  | cons k1 v1 rest1 =>
    cases d2 with
    | nil => exact absurd rfl h2
    | cons k2 v2 rest2 => rfl

/-- Witness for C1's amended determinism at two concrete distinct
Documents and one response text. -/
theorem pipeline_det_in_response_c1_witness :
    run_pipeline jsonLoads (fun t => t) (fun _ => ['x']) (some ['k'])
        (.cons ['a'] .jnull .nil) [lbrace, rbrace]
      = run_pipeline jsonLoads (fun t => 'P' :: t) (fun _ => ['y']) (some ['k'])
        (.cons ['b'] (.jnum 3) .nil) [lbrace, rbrace] :=
  pipeline_det_in_response_c1 jsonLoads (fun t => t) (fun t => 'P' :: t)
    (fun _ => ['x']) (fun _ => ['y']) (some ['k'])
    (.cons ['a'] .jnull .nil) (.cons ['b'] (.jnum 3) .nil) [lbrace, rbrace]
    (by decide) (by decide)

/-! ## Renderer (`apply_cell_style`, `generate_excel`,
src/main.py lines 225–303) -/

/-- A cell value (`cell_value` may be a string or a number per §6). -/
inductive CellValue where
  | str (s : List Char)
  | num (n : Int)
deriving DecidableEq, Repr

/-- One cell record of the mapping: the Python dict with its 14 known
keys, each `Option`-typed to model `dict.get` (`none` = key absent). -/
structure Record where
  cell_coordinate : Option (List Char)
  cell_value : Option CellValue
  font_size : Option Int
  font_color : Option (List Char)
  background_color : Option (List Char)
  is_bold : Option Bool
  is_italic : Option Bool
  horizontal_alignment : Option (List Char)
  vertical_alignment : Option (List Char)
  border_top : Option (List Char)
  border_bottom : Option (List Char)
  border_left : Option (List Char)
  border_right : Option (List Char)
  border_color : Option (List Char)
deriving DecidableEq, Repr

/-- openpyxl `Font(size, color, bold, italic)`. -/
structure Font where
  size : Int
  color : List Char
  bold : Bool
  italic : Bool
deriving DecidableEq, Repr

/-- openpyxl `PatternFill(start_color, end_color, fill_type)`. -/
structure Fill where
  start_color : List Char
  end_color : List Char
  fill_kind : List Char
deriving DecidableEq, Repr

/-- openpyxl `Alignment(horizontal, vertical, wrap_text)`. -/
structure CellAlignment where
  horizontal : List Char
  vertical : List Char
  wrap_text : Bool
deriving DecidableEq, Repr

/-- openpyxl `Side(style, color)`; `Side(style=None)` is `⟨none, none⟩`. -/
structure Side where
  style : Option (List Char)
  color : Option (List Char)
deriving DecidableEq, Repr

/-- openpyxl `Border(top, bottom, left, right)`. -/
structure Border where
  top : Side
  bottom : Side
  left : Side
  right : Side
deriving DecidableEq, Repr

/-- The style state `apply_cell_style` leaves on a cell: font, optional
fill (the code sets `cell.fill` only when `bg_color` is truthy),
alignment, border. -/
structure CellStyle where
  font : Font
  fill : Option Fill
  alignment : CellAlignment
  border : Border
deriving DecidableEq, Repr

/-- The function `apply_cell_style` (src/main.py lines 225–271), as the pure style it
leaves on the cell.  `.get` defaults are the code's; a truthiness test
(`if bg_color:`, `if style and style != "none"`) is false for `none` and
for the empty string. -/
def apply_cell_style (style_data : Record) : CellStyle :=
  let font_size := style_data.font_size.getD 11
  let font_color := style_data.font_color.getD ['0', '0', '0', '0', '0', '0']
  let is_bold := style_data.is_bold.getD false
  let is_italic := style_data.is_italic.getD false
  let bg_color := style_data.background_color
  let h_align := style_data.horizontal_alignment.getD ['l', 'e', 'f', 't']
  let v_align := style_data.vertical_alignment.getD ['c', 'e', 'n', 't', 'e', 'r']
  let fill : Option Fill :=
    match bg_color with
    | some c => if c ≠ [] then some ⟨c, c, ['s', 'o', 'l', 'i', 'd']⟩ else none
    | none => none
  let border_color := style_data.border_color.getD ['D', '3', 'D', '3', 'D', '3']
  let mkSide : List Char → Side := fun st =>
    if st ≠ [] ∧ st ≠ ['n', 'o', 'n', 'e'] then ⟨some st, some border_color⟩ else ⟨none, none⟩
  ⟨⟨font_size, font_color, is_bold, is_italic⟩,
   fill,
   ⟨h_align, v_align, true⟩,
   ⟨mkSide (style_data.border_top.getD ['n', 'o', 'n', 'e']),
    mkSide (style_data.border_bottom.getD ['n', 'o', 'n', 'e']),
    mkSide (style_data.border_left.getD ['n', 'o', 'n', 'e']),
    mkSide (style_data.border_right.getD ['n', 'o', 'n', 'e'])⟩⟩

/-- A worksheet: the cells written so far, keyed by decoded (row, col). -/
abbrev Sheet := List ((Int × Int) × (Option CellValue × CellStyle))

/-- A workbook: named sheets in creation order. -/
abbrev Workbook := List (List Char × Sheet)

/-- The input mapping (`output_data_mappings`): Python dicts keep
insertion order, so an ordered association list. -/
abbrev Mappings := List (List Char × List Record)

/-- Writing to `worksheet[coord]`: replace the cell if that coordinate
was already written, else append it. -/
def setCell : Sheet → (Int × Int) → (Option CellValue × CellStyle) → Sheet
  | [], k, e => [(k, e)]
  | (k', e') :: rest, k, e =>
    if k' = k then (k, e) :: rest else (k', e') :: setCell rest k e

/-- One iteration of the renderer's cell loop (src/main.py lines
284–293): skip a record whose coordinate is absent or empty
(`if not cell_coordinate: continue`); otherwise decode the coordinate —
an undecodable one raises (the openpyxl coordinate error, spec name
`BadCoordinate`) — then write the value and apply the style. -/
def applyRecord (ws : Sheet) (v : Record) : Except Err Sheet :=
  match v.cell_coordinate with
  | none => .ok ws
  | some c =>
    if c = [] then .ok ws
    else
      match decode c with
      | .error _ => .error .badCoordinate
      | .ok rc => .ok (setCell ws rc (v.cell_value, apply_cell_style v))

/-- The renderer's inner loop over one sheet's records. -/
def buildSheet : List Record → Sheet → Except Err Sheet
  | [], ws => .ok ws
  | v :: rest, ws =>
    match applyRecord ws v with
    | .error e => .error e
    | .ok ws2 => buildSheet rest ws2

/-- The renderer's outer loop: `create_sheet(sheet_name)` then fill it. -/
def buildSheets : Mappings → Except Err Workbook
  | [] => .ok []
  | (name, values) :: rest =>
    match buildSheet values [] with
    | .error e => .error e
    | .ok ws =>
      match buildSheets rest with
      | .error e => .error e
      | .ok wbs => .ok ((name, ws) :: wbs)

/-- The default sheet name openpyxl's `Workbook()` starts with. -/
def sheetLit : List Char := ['S', 'h', 'e', 'e', 't']

/-- Model of the statement deleting the default sheet by name: drop the first
sheet with that name. -/
def removeFirstSheet (n : List Char) : Workbook → Workbook
  | [] => []
  | (m, s) :: rest => if m = n then rest else (m, s) :: removeFirstSheet n rest

/-- The function `generate_excel` (src/main.py lines 274–303): empty-mapping check,
default sheet plus one created sheet per mapping key, cell loop, default
sheet removal.  The model's `create_sheet` plainly appends the sheet
under the given name (the claims here do not probe the library's rename
of a colliding title). -/
def generate_excel (m : Mappings) : Except Err Workbook :=
  if m = [] then .error .emptyLayout
  else
    match buildSheets m with
    | .error e => .error e
    | .ok ws =>
      let wb : Workbook := (sheetLit, ([] : Sheet)) :: ws
      .ok (if wb.any (fun p => p.1 = sheetLit) then removeFirstSheet sheetLit wb else wb)

/-- The file writes `generate_excel` performs: the workbook is fully
buffered in memory (`io.BytesIO`) and `open(output_path, "wb")` happens
only after a successful `save`, so the run writes either one complete
serialized workbook or nothing — an exception in the cell loop
propagates before the file is ever opened. -/
def generate_excel_writes (m : Mappings) : List Workbook :=
  match generate_excel m with
  | .ok wb => [wb]
  | .error _ => []

/-- Boolean success test for `Except`. -/
def isOkB {β : Type} : Except Err β → Bool
  | .ok _ => true
  | .error _ => false

/-- True when `if not cell_coordinate` is false: the record has a nonempty
coordinate and will actually be written. -/
def truthyCoord (v : Record) : Bool :=
  match v.cell_coordinate with
  | none => false
  | some c => !c.isEmpty

/-- The record cannot make the renderer raise: its coordinate is absent,
empty, or decodable. -/
def goodRecordB (v : Record) : Bool :=
  match v.cell_coordinate with
  | none => true
  | some c => c.isEmpty || isOkB (decode c)

/-- The record makes the renderer raise: nonempty undecodable
coordinate. -/
def badRecordB (v : Record) : Bool :=
  match v.cell_coordinate with
  | none => false
  | some c => !c.isEmpty && !isOkB (decode c)

/-- The all-`none` cell record (an empty dict). -/
def emptyRecord : Record :=
  ⟨none, none, none, none, none, none, none, none, none, none, none, none, none, none⟩

/-- A record carrying only a coordinate and a value. -/
def coordRecord (c : Option (List Char)) (v : Option CellValue) : Record :=
  ⟨c, v, none, none, none, none, none, none, none, none, none, none, none, none⟩


/-! ## Renderer lemmas -/

theorem setCell_setCell : ∀ (ws : Sheet) (k : Int × Int)
    (e1 e2 : Option CellValue × CellStyle),
    setCell (setCell ws k e1) k e2 = setCell ws k e2 := by
  intro ws k e1 e2
  induction ws with
  | nil => simp [setCell]
  | cons p rest ih =>
    rcases p with ⟨k', e'⟩
    by_cases hk : k' = k
    · subst hk
      simp [setCell]
    · simp only [setCell, if_neg hk]
      rw [ih]

theorem applyRecord_eq_none {ws : Sheet} {v : Record}
    (h : v.cell_coordinate = none) : applyRecord ws v = .ok ws := by
  unfold applyRecord
  rw [h]

theorem applyRecord_eq_empty {ws : Sheet} {v : Record} {c : List Char}
    (h : v.cell_coordinate = some c) (hc : c = []) : applyRecord ws v = .ok ws := by
  unfold applyRecord
  rw [h]
  show (if c = [] then (Except.ok ws : Except Err Sheet)
      else match decode c with
        | .error _ => .error .badCoordinate
        | .ok rc => .ok (setCell ws rc (v.cell_value, apply_cell_style v))) = .ok ws
  rw [if_pos hc]

theorem applyRecord_eq_err {ws : Sheet} {v : Record} {c : List Char} {e' : Err}
    (h : v.cell_coordinate = some c) (hc : ¬ c = []) (hd : decode c = .error e') :
    applyRecord ws v = .error .badCoordinate := by
  unfold applyRecord
  rw [h]
  show (if c = [] then (Except.ok ws : Except Err Sheet)
      else match decode c with
        | .error _ => .error .badCoordinate
        | .ok rc => .ok (setCell ws rc (v.cell_value, apply_cell_style v)))
    = .error .badCoordinate
  rw [if_neg hc, hd]

theorem applyRecord_eq_ok {ws : Sheet} {v : Record} {c : List Char} {rc : Int × Int}
    (h : v.cell_coordinate = some c) (hc : ¬ c = []) (hd : decode c = .ok rc) :
    applyRecord ws v = .ok (setCell ws rc (v.cell_value, apply_cell_style v)) := by
  unfold applyRecord
  rw [h]
  show (if c = [] then (Except.ok ws : Except Err Sheet)
      else match decode c with
        | .error _ => .error .badCoordinate
        | .ok rc => .ok (setCell ws rc (v.cell_value, apply_cell_style v)))
    = .ok (setCell ws rc (v.cell_value, apply_cell_style v))
  rw [if_neg hc, hd]

theorem buildSheet_cons (v : Record) (rest : List Record) (ws : Sheet) :
    buildSheet (v :: rest) ws
      = match applyRecord ws v with
        | .error e => .error e
        | .ok ws2 => buildSheet rest ws2 := rfl

theorem truthyCoord_eq_false_none {v : Record} (h : v.cell_coordinate = none) :
    truthyCoord v = false := by
  unfold truthyCoord
  rw [h]

theorem truthyCoord_eq_false_empty {v : Record} {c : List Char}
    (h : v.cell_coordinate = some c) (hc : c = []) : truthyCoord v = false := by
  unfold truthyCoord
  rw [h]
  show (!c.isEmpty) = false
  subst hc
  rfl

theorem isEmpty_false_of_ne_nil {c : List Char} (hce : ¬ c = []) : c.isEmpty = false := by
  cases c with
  | nil => exact absurd rfl hce
  | cons a t => rfl

theorem truthyCoord_eq_true {v : Record} {c : List Char}
    (h : v.cell_coordinate = some c) (hce : ¬ c = []) : truthyCoord v = true := by
  unfold truthyCoord
  rw [h]
  show (!c.isEmpty) = true
  rw [isEmpty_false_of_ne_nil hce]
  rfl

theorem goodRecordB_eq_true_ok {v : Record} {c : List Char} {rc : Int × Int}
    (h : v.cell_coordinate = some c) (hd : decode c = .ok rc) :
    goodRecordB v = true := by
  unfold goodRecordB
  rw [h]
  show (c.isEmpty || isOkB (decode c)) = true
  rw [hd]
  show (c.isEmpty || true) = true
  rw [Bool.or_true]

theorem goodRecordB_eq_false {v : Record} {c : List Char} {e' : Err}
    (h : v.cell_coordinate = some c) (hce : ¬ c = []) (hd : decode c = .error e') :
    goodRecordB v = false := by
  unfold goodRecordB
  rw [h]
  show (c.isEmpty || isOkB (decode c)) = false
  rw [isEmpty_false_of_ne_nil hce, hd]
  rfl

theorem badRecordB_eq_true {v : Record} {c : List Char} {e' : Err}
    (h : v.cell_coordinate = some c) (hce : ¬ c = []) (hd : decode c = .error e') :
    badRecordB v = true := by
  unfold badRecordB
  rw [h]
  show (!c.isEmpty && !isOkB (decode c)) = true
  rw [isEmpty_false_of_ne_nil hce, hd]
  rfl

theorem badRecordB_elim {v : Record} (h : badRecordB v = true) :
    ∃ c e', v.cell_coordinate = some c ∧ ¬ c = [] ∧ decode c = .error e' := by
  unfold badRecordB at h
  rcases hc : v.cell_coordinate with _ | c <;> rw [hc] at h
  · cases h
  · have h' : (!c.isEmpty && !isOkB (decode c)) = true := h
    simp only [Bool.and_eq_true] at h'
    rcases h' with ⟨h1, h2⟩
    have hce : ¬ c = [] := by
      intro hnil
      subst hnil
      cases h1
    rcases hd : decode c with e' | rc
    · exact ⟨c, e', rfl, hce, hd⟩
    · rw [hd] at h2
      cases h2

theorem applyRecord_cases (ws : Sheet) (v : Record) :
    (applyRecord ws v = .ok ws ∧ truthyCoord v = false)
    ∨ (∃ c rc, v.cell_coordinate = some c ∧ ¬ c = [] ∧ decode c = .ok rc
        ∧ applyRecord ws v = .ok (setCell ws rc (v.cell_value, apply_cell_style v))
        ∧ truthyCoord v = true ∧ goodRecordB v = true)
    ∨ (∃ c e', v.cell_coordinate = some c ∧ ¬ c = [] ∧ decode c = .error e'
        ∧ applyRecord ws v = .error .badCoordinate ∧ badRecordB v = true) := by
  rcases hc : v.cell_coordinate with _ | c
  · exact Or.inl ⟨applyRecord_eq_none hc, truthyCoord_eq_false_none hc⟩
  · by_cases hce : c = []
    · exact Or.inl ⟨applyRecord_eq_empty hc hce, truthyCoord_eq_false_empty hc hce⟩
    · rcases hd : decode c with e' | rc
      · exact Or.inr (Or.inr ⟨c, e', rfl, hce, hd, applyRecord_eq_err hc hce hd,
          badRecordB_eq_true hc hce hd⟩)
      · exact Or.inr (Or.inl ⟨c, rc, rfl, hce, hd, applyRecord_eq_ok hc hce hd,
          truthyCoord_eq_true hc hce, goodRecordB_eq_true_ok hc hd⟩)

theorem buildSheet_filter : ∀ (values : List Record) (ws : Sheet),
    buildSheet values ws = buildSheet (values.filter truthyCoord) ws := by
  intro values
  induction values with
  | nil => intro ws; rfl
  | cons v rest ih =>
    intro ws
    rcases applyRecord_cases ws v with ⟨ha, ht⟩ | ⟨c, rc, _, hce, _, ha, ht, _⟩
      | ⟨c, e', hc2, hce, hd, ha, hb⟩
    · rw [List.filter_cons_of_neg (by rw [ht]; exact fun hcon => by cases hcon),
          buildSheet_cons, ha]
      exact ih ws
    · rw [List.filter_cons_of_pos (by rw [ht]), buildSheet_cons, buildSheet_cons, ha]
      exact ih _
    · have ht : truthyCoord v = true := truthyCoord_eq_true hc2 hce
      rw [List.filter_cons_of_pos (by rw [ht]), buildSheet_cons, buildSheet_cons, ha]

theorem buildSheet_err_shape : ∀ (values : List Record) (ws : Sheet) {e : Err},
    buildSheet values ws = .error e → e = .badCoordinate := by
  intro values
  induction values with
  | nil => intro ws e h; cases h
  | cons v rest ih =>
    intro ws e h
    rw [buildSheet_cons] at h
    rcases applyRecord_cases ws v with ⟨ha, _⟩ | ⟨c, rc, _, _, _, ha, _, _⟩
      | ⟨c, e', _, _, _, ha, _⟩ <;> rw [ha] at h
    · exact ih ws h
    · exact ih _ h
    · cases h
      rfl

theorem buildSheet_ok_of_good : ∀ (values : List Record) (ws : Sheet),
    (∀ v ∈ values, goodRecordB v = true) → ∃ ws2, buildSheet values ws = .ok ws2 := by
  intro values
  induction values with
  | nil => intro ws _; exact ⟨ws, rfl⟩
  | cons v rest ih =>
    intro ws hgood
    rcases applyRecord_cases ws v with ⟨ha, _⟩ | ⟨c, rc, _, _, _, ha, _, _⟩
      | ⟨c, e', hc, hce, hd, _, _⟩
    · obtain ⟨ws2, h2⟩ := ih ws (fun u hu => hgood u (List.mem_cons_of_mem v hu))
      exact ⟨ws2, by rw [buildSheet_cons, ha]; exact h2⟩
    · obtain ⟨ws2, h2⟩ := ih _ (fun u hu => hgood u (List.mem_cons_of_mem v hu))
      exact ⟨ws2, by rw [buildSheet_cons, ha]; exact h2⟩
    · exfalso
      have hg := hgood v (List.mem_cons_self v rest)
      rw [goodRecordB_eq_false hc hce hd] at hg
      cases hg

theorem buildSheet_err_of_bad : ∀ (values : List Record) (ws : Sheet),
    (∃ v ∈ values, badRecordB v = true) →
    buildSheet values ws = .error .badCoordinate := by
  intro values
  induction values with
  | nil =>
    intro ws h
    obtain ⟨v, hv, _⟩ := h
    cases hv
  | cons v rest ih =>
    intro ws hex
    rcases applyRecord_cases ws v with ⟨ha, ht⟩ | ⟨c, rc, hc, hce, hd, ha, _, _⟩
      | ⟨c, e', _, _, _, ha, _⟩
    · obtain ⟨u, hu, hbu⟩ := hex
      rcases List.mem_cons.mp hu with h1 | h1
      · subst h1
        obtain ⟨cc, ee, hcc, hcce, _⟩ := badRecordB_elim hbu
        rw [truthyCoord_eq_true hcc hcce] at ht
        cases ht
      · rw [buildSheet_cons, ha]
        exact ih ws ⟨u, h1, hbu⟩
    · obtain ⟨u, hu, hbu⟩ := hex
      rcases List.mem_cons.mp hu with h1 | h1
      · subst h1
        obtain ⟨cc, ee, hcc, hcce, hdd⟩ := badRecordB_elim hbu
        rw [hc] at hcc
        cases hcc
        rw [hd] at hdd
        cases hdd
      · rw [buildSheet_cons, ha]
        exact ih _ ⟨u, h1, hbu⟩
    · rw [buildSheet_cons, ha]

theorem buildSheets_cons (name : List Char) (values : List Record) (rest : Mappings) :
    buildSheets ((name, values) :: rest)
      = match buildSheet values [] with
        | .error e => .error e
        | .ok ws =>
          match buildSheets rest with
          | .error e => .error e
          | .ok wbs => .ok ((name, ws) :: wbs) := rfl

theorem buildSheets_err_shape : ∀ (m : Mappings) {e : Err},
    buildSheets m = .error e → e = .badCoordinate := by
  intro m
  induction m with
  | nil => intro e h; cases h
  | cons pair rest ih =>
    rcases pair with ⟨name, values⟩
    intro e h
    rw [buildSheets_cons] at h
    rcases h1 : buildSheet values [] with e1 | ws <;> rw [h1] at h
    · have h' : (Except.error e1 : Except Err Workbook) = .error e := h
      cases h'
      exact buildSheet_err_shape values [] h1
    · rcases h2 : buildSheets rest with e2 | wbs <;> rw [h2] at h
      · have h' : (Except.error e2 : Except Err Workbook) = .error e := h
        cases h'
        exact ih h2
      · have h' : (Except.ok ((name, ws) :: wbs) : Except Err Workbook) = .error e := h
        cases h'

theorem buildSheets_ok_of_good : ∀ (m : Mappings),
    (∀ pair ∈ m, ∀ v ∈ pair.2, goodRecordB v = true) →
    ∃ ws, buildSheets m = .ok ws := by
  intro m
  induction m with
  | nil => intro _; exact ⟨[], rfl⟩
  | cons pair rest ih =>
    rcases pair with ⟨name, values⟩
    intro hgood
    obtain ⟨ws, h1⟩ := buildSheet_ok_of_good values []
      (fun v hv => hgood (name, values) (List.mem_cons_self _ _) v hv)
    obtain ⟨wbs, h2⟩ := ih (fun p hp v hv => hgood p (List.mem_cons_of_mem _ hp) v hv)
    refine ⟨(name, ws) :: wbs, ?_⟩
    rw [buildSheets_cons, h1, h2]

theorem buildSheets_err_of_bad : ∀ (m : Mappings),
    (∃ pair ∈ m, ∃ v ∈ pair.2, badRecordB v = true) →
    buildSheets m = .error .badCoordinate := by
  intro m
  induction m with
  | nil =>
    intro h
    obtain ⟨pair, hp, _⟩ := h
    cases hp
  | cons pair rest ih =>
    rcases pair with ⟨name, values⟩
    intro hex
    obtain ⟨p, hp, v, hv, hbv⟩ := hex
    rcases List.mem_cons.mp hp with h1 | h1
    · subst h1
      rw [buildSheets_cons, buildSheet_err_of_bad values [] ⟨v, hv, hbv⟩]
    · rw [buildSheets_cons]
      rcases hbs : buildSheet values [] with e1 | ws
      · have : e1 = .badCoordinate := buildSheet_err_shape values [] hbs
        subst this
        rfl
      · rw [ih ⟨p, h1, v, hv, hbv⟩]

theorem buildSheets_names : ∀ (m : Mappings) (ws : Workbook),
    buildSheets m = .ok ws → ws.map Prod.fst = m.map Prod.fst := by
  intro m
  induction m with
  | nil =>
    intro ws h
    have h' : (Except.ok ([] : Workbook) : Except Err Workbook) = .ok ws := h
    cases h'
    rfl
  | cons pair rest ih =>
    rcases pair with ⟨name, values⟩
    intro ws h
    rw [buildSheets_cons] at h
    rcases h1 : buildSheet values [] with e1 | ws1 <;> rw [h1] at h
    · cases h
    · rcases h2 : buildSheets rest with e2 | wbs <;> rw [h2] at h
      · cases h
      · have h' : (Except.ok ((name, ws1) :: wbs) : Except Err Workbook) = .ok ws := h
        cases h'
        show name :: wbs.map Prod.fst = name :: rest.map Prod.fst
        rw [ih wbs h2]

theorem generate_excel_eq_ok {m : Mappings} {ws : Workbook} (hm : ¬ m = [])
    (h : buildSheets m = .ok ws) : generate_excel m = .ok ws := by
  unfold generate_excel
  rw [if_neg hm, h]
  simp [List.any_cons, removeFirstSheet]

theorem generate_excel_eq_err {m : Mappings} {e : Err} (hm : ¬ m = [])
    (h : buildSheets m = .error e) : generate_excel m = .error e := by
  unfold generate_excel
  rw [if_neg hm, h]

/-- C8: the Renderer fails with `EmptyLayout` iff the mapping has zero
sheets; on success the persisted workbook has exactly one sheet per
mapping key, in order, with the default `Sheet` removed. -/
theorem renderer_sheets_c8 :
    (∀ m : Mappings, generate_excel m = .error .emptyLayout ↔ m = [])
    ∧ (∀ (m : Mappings) (wb : Workbook),
        generate_excel m = .ok wb → wb.map Prod.fst = m.map Prod.fst) := by
  constructor
  · intro m
    constructor
    · intro h
      by_contra hm
      rcases hbs : buildSheets m with e | ws
      · rw [generate_excel_eq_err hm hbs] at h
        cases h
        have := buildSheets_err_shape m hbs
        cases this
      · rw [generate_excel_eq_ok hm hbs] at h
        cases h
    · intro h
      subst h
      rfl
  · intro m wb h
    by_cases hm : m = []
    · subst hm
      cases h
    · rcases hbs : buildSheets m with e | ws
      · rw [generate_excel_eq_err hm hbs] at h
        cases h
      · rw [generate_excel_eq_ok hm hbs] at h
        cases h
        exact buildSheets_names m wb hbs

/-- Witness for C8 at the one-sheet mapping `{"Bank Statement": [...]}`:
the workbook keeps exactly that sheet name and `EmptyLayout` would mean
the mapping were empty. -/
theorem renderer_sheets_c8_witness :
    (generate_excel [(['B', 'S'], [coordRecord (some ['A', '1']) (some (.num 5))])]
        = .error .emptyLayout
      ↔ [(['B', 'S'], [coordRecord (some ['A', '1']) (some (.num 5))])] = ([] : Mappings))
    ∧ ([(['B', 'S'],
          [((1, 1), (some (CellValue.num 5), apply_cell_style (coordRecord (some ['A', '1'])
            (some (.num 5)))))])] : Workbook).map Prod.fst
        = ([(['B', 'S'], [coordRecord (some ['A', '1']) (some (.num 5))])] : Mappings).map
            Prod.fst :=
  ⟨renderer_sheets_c8.1 _,
   renderer_sheets_c8.2 [(['B', 'S'], [coordRecord (some ['A', '1']) (some (.num 5))])]
     _ (by decide)⟩

/-- C6 (amended): a record whose coordinate is a nonempty string that
fails decoding makes the Renderer raise — modelled as `BadCoordinate` —
and nothing is written to the output file; absent or empty coordinates do
not raise (they are skipped, see C9). -/
theorem renderer_badcoord_c6 : ∀ m : Mappings, ¬ m = [] →
    (∃ pair ∈ m, ∃ v ∈ pair.2, badRecordB v = true) →
    generate_excel m = .error .badCoordinate ∧ generate_excel_writes m = [] := by
  intro m hm hex
  have h := generate_excel_eq_err hm (buildSheets_err_of_bad m hex)
  refine ⟨h, ?_⟩
  unfold generate_excel_writes
  rw [h]

/-- C6 (counterexample): a cell record with an absent coordinate — which
"fails Codec decoding" in the claim's sense — does not make the Renderer
fail with `BadCoordinate`: the mapping renders successfully and the
record is skipped. -/
theorem renderer_badcoord_counterexample_c6 :
    generate_excel [(['S'], [coordRecord none (some (.num 1))])] = .ok [(['S'], [])]
    ∧ generate_excel [(['S'], [coordRecord none (some (.num 1))])]
        ≠ .error .badCoordinate := by
  decide

/-- Witness for C6's amended theorem at the malformed coordinate `1A`. -/
theorem renderer_badcoord_c6_witness :
    generate_excel [(['S'], [coordRecord (some ['1', 'A']) none])] = .error .badCoordinate
    ∧ generate_excel_writes [(['S'], [coordRecord (some ['1', 'A']) none])] = [] :=
  renderer_badcoord_c6 [(['S'], [coordRecord (some ['1', 'A']) none])]
    (by decide) (by decide)

/-- C7: the Renderer is atomic with respect to the output file — on any
failure nothing is written, and a run writes either nothing or exactly
one complete workbook (the workbook is fully buffered in memory before
the single write). -/
theorem renderer_atomic_c7 : ∀ m : Mappings,
    ((∃ e, generate_excel m = .error e) → generate_excel_writes m = [])
    ∧ (generate_excel_writes m = []
        ∨ ∃ wb, generate_excel m = .ok wb ∧ generate_excel_writes m = [wb]) := by
  intro m
  rcases h : generate_excel m with e | wb
  · constructor
    · intro _
      unfold generate_excel_writes
      rw [h]
    · left
      unfold generate_excel_writes
      rw [h]
  · constructor
    · intro hex
      obtain ⟨e, he⟩ := hex
      cases he
    · right
      refine ⟨wb, rfl, ?_⟩
      unfold generate_excel_writes
      rw [h]

/-- Witness for C7 at a mapping whose only record has the malformed
coordinate `1A`: the run fails and writes nothing. -/
theorem renderer_atomic_c7_witness :
    generate_excel_writes [(['S'], [coordRecord (some ['1', 'A']) none])] = [] :=
  (renderer_atomic_c7 [(['S'], [coordRecord (some ['1', 'A']) none])]).1
    ⟨.badCoordinate, by decide⟩

/-- C9: a cell record whose coordinate is absent or empty is silently
skipped — rendering a sheet equals rendering it with those records
filtered out — and a mapping whose remaining coordinates all decode is
rendered and saved without any error. -/
theorem renderer_skip_c9 :
    (∀ (values : List Record) (ws : Sheet),
      buildSheet values ws = buildSheet (values.filter truthyCoord) ws)
    ∧ (∀ m : Mappings, ¬ m = [] →
        (∀ pair ∈ m, ∀ v ∈ pair.2, goodRecordB v = true) →
        ∃ wb, generate_excel m = .ok wb) := by
  constructor
  · exact buildSheet_filter
  · intro m hm hgood
    obtain ⟨ws, h⟩ := buildSheets_ok_of_good m hgood
    exact ⟨ws, generate_excel_eq_ok hm h⟩

/-- Witness for C9 at a sheet with one skipped (absent coordinate), one
skipped (empty coordinate) and one written record. -/
theorem renderer_skip_c9_witness :
    buildSheet [coordRecord none (some (.num 1)), coordRecord (some []) (some (.num 2)),
        coordRecord (some ['B', '2']) (some (.num 3))] []
      = buildSheet
          ([coordRecord none (some (.num 1)), coordRecord (some []) (some (.num 2)),
            coordRecord (some ['B', '2']) (some (.num 3))].filter truthyCoord) []
    ∧ ∃ wb, generate_excel
        [(['S'], [coordRecord none (some (.num 1)), coordRecord (some []) (some (.num 2)),
          coordRecord (some ['B', '2']) (some (.num 3))])] = .ok wb :=
  ⟨renderer_skip_c9.1 _ [],
   renderer_skip_c9.2 _ (by decide) (by decide)⟩

/-- Duplicate detector over a list of coordinates. -/
def listHasDup : List (List Char) → Bool
  | [] => false
  | x :: xs => xs.contains x || listHasDup xs

/-- Modelled from the spec: the §3 invariant-1 check ("within a sheet, no
two CellMappings share a coordinate") that §4.6 says the Mapping Ingestor
runs before handing the structure to the Renderer.  No such validation
exists in the code; this definition is used to exhibit that. -/
def hasDupCoords (m : Mappings) : Bool :=
  m.any (fun pair => listHasDup (pair.2.filterMap (fun v => v.cell_coordinate)))

/-- C2 (counterexample): a parsed mapping in which two cell records of one
sheet share the coordinate `A1` — violating §3 invariant 1 — is not
rejected: the Renderer runs on it successfully, and no
`InvalidLayoutMapping` failure exists anywhere in the pipeline. -/
theorem ingestor_no_validation_counterexample_c2 :
    hasDupCoords [(['S'], [coordRecord (some ['A', '1']) (some (.num 1)),
        coordRecord (some ['A', '1']) (some (.num 2))])] = true
    ∧ isOkB (generate_excel [(['S'], [coordRecord (some ['A', '1']) (some (.num 1)),
        coordRecord (some ['A', '1']) (some (.num 2))])]) = true := by
  decide

/-- C2 (amended): no validation of the §3 invariants happens between
parsing and rendering.  Every nonempty mapping whose nonempty coordinates
decode is rendered successfully — invariant violations included — and two
records with the same coordinate are resolved by last write wins. -/
theorem renderer_no_validation_c2 :
    (∀ m : Mappings, ¬ m = [] →
      (∀ pair ∈ m, ∀ v ∈ pair.2, goodRecordB v = true) →
      isOkB (generate_excel m) = true)
    ∧ (∀ (v1 v2 : Record) (c : List Char) (rc : Int × Int) (ws : Sheet),
        v1.cell_coordinate = some c → v2.cell_coordinate = some c → ¬ c = [] →
        decode c = .ok rc →
        buildSheet [v1, v2] ws = .ok (setCell ws rc (v2.cell_value, apply_cell_style v2))) := by
  constructor
  · intro m hm hgood
    obtain ⟨ws, h⟩ := buildSheets_ok_of_good m hgood
    rw [generate_excel_eq_ok hm h]
    rfl
  · intro v1 v2 c rc ws h1 h2 hce hd
    rw [buildSheet_cons, applyRecord_eq_ok h1 hce hd]
    show buildSheet [v2] (setCell ws rc (v1.cell_value, apply_cell_style v1))
      = Except.ok (setCell ws rc (v2.cell_value, apply_cell_style v2))
    rw [buildSheet_cons, applyRecord_eq_ok h2 hce hd]
    show Except.ok (setCell (setCell ws rc (v1.cell_value, apply_cell_style v1)) rc
        (v2.cell_value, apply_cell_style v2)) = _
    rw [setCell_setCell]

/-- Witness for C2's amended theorem: the duplicate-`A1` mapping renders
successfully, and on one sheet the second `A1` record wins. -/
theorem renderer_no_validation_c2_witness :
    isOkB (generate_excel [(['S'], [coordRecord (some ['A', '1']) (some (.num 1)),
        coordRecord (some ['A', '1']) (some (.num 2))])]) = true
    ∧ buildSheet [coordRecord (some ['A', '1']) (some (.num 1)),
          coordRecord (some ['A', '1']) (some (.num 2))] []
        = .ok (setCell [] (1, 1)
            ((coordRecord (some ['A', '1']) (some (.num 2))).cell_value,
             apply_cell_style (coordRecord (some ['A', '1']) (some (.num 2))))) :=
  ⟨renderer_no_validation_c2.1 _ (by decide) (by decide),
   renderer_no_validation_c2.2 (coordRecord (some ['A', '1']) (some (.num 1)))
     (coordRecord (some ['A', '1']) (some (.num 2))) ['A', '1'] (1, 1) []
     rfl rfl (by decide) (by decide)⟩

/-- C10: cell style application is total over partial records — every
missing attribute falls back to its fixed default (font size 11, color
000000, not bold, not italic, horizontal left, vertical center, all four
borders none, border color D3D3D3), a solid fill is applied only when
`background_color` is present and truthy, and text wrapping is always
set. -/
theorem style_defaults_c10 : ∀ v : Record,
    ((apply_cell_style v).alignment.wrap_text = true)
    ∧ ((apply_cell_style v).fill.isSome = true →
        ∃ c, v.background_color = some c ∧ ¬ c = [])
    ∧ (v.background_color = none → (apply_cell_style v).fill = none)
    ∧ (v.font_size = none → (apply_cell_style v).font.size = 11)
    ∧ (v.font_color = none → (apply_cell_style v).font.color = ['0', '0', '0', '0', '0', '0'])
    ∧ (v.is_bold = none → (apply_cell_style v).font.bold = false)
    ∧ (v.is_italic = none → (apply_cell_style v).font.italic = false)
    ∧ (v.horizontal_alignment = none →
        (apply_cell_style v).alignment.horizontal = ['l', 'e', 'f', 't'])
    ∧ (v.vertical_alignment = none →
        (apply_cell_style v).alignment.vertical = ['c', 'e', 'n', 't', 'e', 'r'])
    ∧ (v.border_top = none → (apply_cell_style v).border.top = ⟨none, none⟩)
    ∧ (v.border_bottom = none → (apply_cell_style v).border.bottom = ⟨none, none⟩)
    ∧ (v.border_left = none → (apply_cell_style v).border.left = ⟨none, none⟩)
    ∧ (v.border_right = none → (apply_cell_style v).border.right = ⟨none, none⟩)
    ∧ (v.border_color = none → v.border_top = some ['t', 'h', 'i', 'n'] →
        (apply_cell_style v).border.top
          = ⟨some ['t', 'h', 'i', 'n'], some ['D', '3', 'D', '3', 'D', '3']⟩) := by
  intro v
  refine ⟨by simp [apply_cell_style], ?_, ?_, ?_, ?_, ?_, ?_, ?_, ?_, ?_, ?_, ?_, ?_, ?_⟩
  · intro h
    rcases hb : v.background_color with _ | c
    · simp [apply_cell_style, hb] at h
    · by_cases hce : c = []
      · simp [apply_cell_style, hb, hce] at h
      · exact ⟨c, rfl, hce⟩
  · intro h
    simp [apply_cell_style, h]
  · intro h
    simp [apply_cell_style, h]
  · intro h
    simp [apply_cell_style, h]
  · intro h
    simp [apply_cell_style, h]
  · intro h
    simp [apply_cell_style, h]
  · intro h
    simp [apply_cell_style, h]
  · intro h
    simp [apply_cell_style, h]
  · intro h
    simp [apply_cell_style, h]
  · intro h
    simp [apply_cell_style, h]
  · intro h
    simp [apply_cell_style, h]
  · intro h
    simp [apply_cell_style, h]
  · intro h1 h2
    simp [apply_cell_style, h1, h2]

/-- Witness for C10 at the empty record (every attribute missing) and at
a record carrying only `border_top: thin`. -/
theorem style_defaults_c10_witness :
    (apply_cell_style emptyRecord).alignment.wrap_text = true
    ∧ (apply_cell_style emptyRecord).fill = none
    ∧ (apply_cell_style emptyRecord).font.size = 11
    ∧ (apply_cell_style emptyRecord).font.color = ['0', '0', '0', '0', '0', '0']
    ∧ (apply_cell_style emptyRecord).font.bold = false
    ∧ (apply_cell_style emptyRecord).font.italic = false
    ∧ (apply_cell_style emptyRecord).alignment.horizontal = ['l', 'e', 'f', 't']
    ∧ (apply_cell_style emptyRecord).alignment.vertical = ['c', 'e', 'n', 't', 'e', 'r']
    ∧ (apply_cell_style emptyRecord).border.top = ⟨none, none⟩
    ∧ (apply_cell_style emptyRecord).border.bottom = ⟨none, none⟩
    ∧ (apply_cell_style emptyRecord).border.left = ⟨none, none⟩
    ∧ (apply_cell_style emptyRecord).border.right = ⟨none, none⟩
    ∧ (apply_cell_style ⟨none, none, none, none, none, none, none, none, none,
          some ['t', 'h', 'i', 'n'], none, none, none, none⟩).border.top
        = ⟨some ['t', 'h', 'i', 'n'], some ['D', '3', 'D', '3', 'D', '3']⟩ :=
  ⟨(style_defaults_c10 emptyRecord).1,
   (style_defaults_c10 emptyRecord).2.2.1 rfl,
   (style_defaults_c10 emptyRecord).2.2.2.1 rfl,
   (style_defaults_c10 emptyRecord).2.2.2.2.1 rfl,
   (style_defaults_c10 emptyRecord).2.2.2.2.2.1 rfl,
   (style_defaults_c10 emptyRecord).2.2.2.2.2.2.1 rfl,
   (style_defaults_c10 emptyRecord).2.2.2.2.2.2.2.1 rfl,
   (style_defaults_c10 emptyRecord).2.2.2.2.2.2.2.2.1 rfl,
   (style_defaults_c10 emptyRecord).2.2.2.2.2.2.2.2.2.1 rfl,
   (style_defaults_c10 emptyRecord).2.2.2.2.2.2.2.2.2.2.1 rfl,
   (style_defaults_c10 emptyRecord).2.2.2.2.2.2.2.2.2.2.2.1 rfl,
   (style_defaults_c10 emptyRecord).2.2.2.2.2.2.2.2.2.2.2.2.1 rfl,
   (style_defaults_c10 ⟨none, none, none, none, none, none, none, none, none,
      some ['t', 'h', 'i', 'n'], none, none, none, none⟩).2.2.2.2.2.2.2.2.2.2.2.2.2
     rfl rfl⟩
